import Mathlib

/-!
Verification of the openstack_client_exporter repository.

The development shallowly embeds the probe orchestration pipeline
(`spawn.go`, `main.go`) and the tag-based garbage collector (`gc.go`,
and the variant in the unnamed source part) into Lean, and proves or
refutes the spec's claims about them.

Strings from the Go source are modelled as `List Char`; wall-clock
instants and durations are modelled as `Int` nanoseconds (Go's
`time.Time`/`time.Duration` resolution).
-/

namespace OpenStackExporter

/-! ## Constants (main.go) -/

/-- `resourceTag = "openstack-client-exporter"` (main.go). -/
def resourceTag : List Char := "openstack-client-exporter".toList

/-- Nanoseconds per second, Go's `time.Duration` unit conversion. -/
def nsPerSec : Int := 1000000000

/-- `garbageCollectorResourceAge = 15 * time.Minute` (main.go), in nanoseconds. -/
def garbageCollectorResourceAge : Int := 15 * 60 * nsPerSec

/-- `garbageCollectorSleep = 1 * time.Minute` (main.go), in nanoseconds. -/
def garbageCollectorSleep : Int := 60 * nsPerSec

/-! ## The gc name matcher (gc.go `shouldDelete`)

`shouldDelete` compiles the regular expression
`resourceTag + "-[0-9a-zA-Z]+-([0-9]+)"` and runs
`re.FindStringSubmatch(name)`: an unanchored leftmost search.  For this
particular pattern the match attempt at a given start position is
deterministic: after the literal `resourceTag ++ "-"` the `[0-9a-zA-Z]+`
run must stop exactly at the next non-alphanumeric character, which the
pattern requires to be `-`, and the `([0-9]+)` capture is the maximal
digit run that follows.  `matchAt` implements that attempt at one
position and `findCapture` scans positions left to right, which is
exactly Go's leftmost-match semantics for this pattern. -/

/-- The Go regexp character class `[0-9a-zA-Z]`. -/
def goAlnum (c : Char) : Bool :=
  c.isDigit || ('a' ≤ c && c ≤ 'z') || ('A' ≤ c && c ≤ 'Z')

/-- Attempt to match `tag ++ "-" ++ [0-9a-zA-Z]+ ++ "-" ++ [0-9]+` at the
start of `s`, returning `(alnum segment, digit capture)` on success. -/
def matchAt (tag : List Char) (s : List Char) : Option (List Char × List Char) :=
  if (tag ++ ['-']).isPrefixOf s then
    let rest := s.drop (tag.length + 1)
    let a := rest.takeWhile goAlnum
    if a.isEmpty then none
    else
      match rest.drop a.length with
      | [] => none
      | c :: rest2 =>
        if c = '-' then
          let d := rest2.takeWhile Char.isDigit
          if d.isEmpty then none else some (a, d)
        else none
  else none

/-- Leftmost unanchored search for the pattern, as
`regexp.FindStringSubmatch` performs on this pattern. -/
def findCapture (tag : List Char) (s : List Char) : Option (List Char × List Char) :=
  match s with
  | [] => none
  | c :: t =>
    match matchAt tag (c :: t) with
    | some r => some r
    | none => findCapture tag t

/-- Decimal value of a digit string (the value `strconv.ParseInt` returns
on an all-digit input when it does not overflow). -/
def digitsToNat (l : List Char) : Nat :=
  l.foldl (fun a c => a * 10 + (c.toNat - 48)) 0

/-- `math.MaxInt64`. -/
def int64Max : Nat := 9223372036854775807

/-- `strconv.ParseInt(s, 10, 64)` restricted to all-digit inputs (the
only inputs `shouldDelete` feeds it): fails on the empty string and on
int64 overflow, otherwise returns the decimal value. -/
def parseInt64 (l : List Char) : Option Int :=
  if l.isEmpty then none
  else if digitsToNat l ≤ int64Max then some (digitsToNat l) else none

/-- The Unix-seconds value of Go's zero `time.Time` (January 1, year 1
UTC): `time.Unix(ts, 0).IsZero()` holds exactly for this `ts`. -/
def zeroTimeUnixSeconds : Int := -62135596800

/-- `shouldDelete` (gc.go lines 35-69; identical in the unnamed gc
variant lines 39-73).  `now` is the current wall clock in nanoseconds;
`time.Since(time.Unix(ts, 0))` is `now - ts * nsPerSec`.  The constant
regular expression always compiles, so the compile-error branch of the
source is unreachable and not modelled. -/
def shouldDelete (now : Int) (name : List Char) : Bool :=
  if resourceTag.isPrefixOf name then
    match findCapture resourceTag name with
    | none => false
    | some (_, d) =>
      match parseInt64 d with
      | none => false
      | some ts =>
        if ts = zeroTimeUnixSeconds then false
        else decide (now - ts * nsPerSec > garbageCollectorResourceAge)
  else false

/-! ## Declarative characterization of the matcher -/

/-- A nonempty run of `[0-9a-zA-Z]` characters. -/
def AlnumRun (l : List Char) : Prop := l ≠ [] ∧ ∀ c ∈ l, goAlnum c = true

/-- A nonempty run of `[0-9]` characters. -/
def DigitRun (l : List Char) : Prop := l ≠ [] ∧ ∀ c ∈ l, c.isDigit = true

/-- `s` begins with a full match of the pattern, with alnum segment `a`
and digit capture `d`; the capture is maximal (no digit follows it). -/
def MatchFrom (tag s a d : List Char) : Prop :=
  ∃ rest, s = tag ++ '-' :: (a ++ '-' :: (d ++ rest)) ∧ AlnumRun a ∧ DigitRun d ∧
    ∀ c, rest.head? = some c → c.isDigit = false

/-- The pattern matches at position `i` of `s`. -/
def FoundAt (tag s : List Char) (i : Nat) (a d : List Char) : Prop :=
  MatchFrom tag (s.drop i) a d

instance (l : List Char) : Decidable (AlnumRun l) := by
  unfold AlnumRun; infer_instance

instance (l : List Char) : Decidable (DigitRun l) := by
  unfold DigitRun; infer_instance

lemma takeWhile_append_of_head (p : Char → Bool) (a rest : List Char)
    (ha : ∀ c ∈ a, p c = true) (hr : ∀ c, rest.head? = some c → p c = false) :
    (a ++ rest).takeWhile p = a := by
  induction a with
  | nil =>
    simp only [List.nil_append]
    cases rest with
    | nil => rfl
    | cons c t => simp [List.takeWhile_cons, hr c rfl]
  | cons c a ih =>
    have hc : p c = true := ha c (by simp)
    simp only [List.cons_append, List.takeWhile_cons, hc, if_pos]
    rw [ih (fun x hx => ha x (by simp [hx]))]

lemma drop_takeWhile_length (p : Char → Bool) (l : List Char) :
    l.drop (l.takeWhile p).length = l.dropWhile p := by
  induction l with
  | nil => rfl
  | cons c t ih =>
    by_cases hc : p c = true
    · simp [List.takeWhile_cons, List.dropWhile_cons, hc, ih]
    · simp [List.takeWhile_cons, List.dropWhile_cons, hc]

lemma head_dropWhile_false (p : Char → Bool) (l : List Char) :
    ∀ c, (l.dropWhile p).head? = some c → p c = false := by
  induction l with
  | nil => intro c hc; simp at hc
  | cons x t ih =>
    intro c hc
    by_cases hx : p x = true
    · exact ih c (by simpa [List.dropWhile_cons, hx] using hc)
    · simp only [List.dropWhile_cons, hx, if_neg, Bool.not_eq_true] at hc
      simp only [List.head?_cons, Option.some.injEq] at hc
      subst hc
      simpa using hx

lemma mem_takeWhile_sat (p : Char → Bool) (l : List Char) :
    ∀ c ∈ l.takeWhile p, p c = true := by
  induction l with
  | nil => intro c hc; simp at hc
  | cons x t ih =>
    intro c hc
    by_cases hx : p x = true
    · rw [List.takeWhile_cons, if_pos hx] at hc
      rcases List.mem_cons.mp hc with h | h
      · subst h; exact hx
      · exact ih c h
    · rw [List.takeWhile_cons, if_neg (by simpa using hx)] at hc
      simp at hc

lemma matchAt_iff (tag s a d : List Char) :
    matchAt tag s = some (a, d) ↔ MatchFrom tag s a d := by
  constructor
  · intro h
    unfold matchAt at h
    by_cases hp : (tag ++ ['-']).isPrefixOf s = true
    swap
    · simp [hp] at h
    rw [if_pos hp] at h
    obtain ⟨u, hu⟩ : ∃ u, s = (tag ++ ['-']) ++ u := by
      rcases List.isPrefixOf_iff_prefix.mp hp with ⟨u, hu⟩
      exact ⟨u, hu.symm⟩
    have hdrop : s.drop (tag.length + 1) = u := by
      have hlen : (tag ++ ['-']).length = tag.length + 1 := by simp
      rw [hu, ← hlen, List.drop_left]
    simp only [hdrop, drop_takeWhile_length] at h
    by_cases hae : (u.takeWhile goAlnum).isEmpty = true
    · simp [hae] at h
    rw [if_neg hae] at h
    rcases hw : u.dropWhile goAlnum with _ | ⟨c, rest2⟩
    · rw [hw] at h; simp at h
    rw [hw] at h
    simp only at h
    by_cases hc : c = '-'
    swap
    · rw [if_neg hc] at h; simp at h
    subst hc
    rw [if_pos rfl] at h
    by_cases hde : (rest2.takeWhile Char.isDigit).isEmpty = true
    · simp [hde] at h
    rw [if_neg hde] at h
    simp only [Option.some.injEq, Prod.mk.injEq] at h
    obtain ⟨ha, hd⟩ := h
    refine ⟨rest2.dropWhile Char.isDigit, ?_, ?_, ?_, ?_⟩
    · calc s = (tag ++ ['-']) ++ u := hu
        _ = (tag ++ ['-']) ++ (u.takeWhile goAlnum ++ u.dropWhile goAlnum) := by
            rw [List.takeWhile_append_dropWhile]
        _ = (tag ++ ['-']) ++ (a ++ ('-' :: rest2)) := by rw [ha, hw]
        _ = (tag ++ ['-']) ++
            (a ++ ('-' :: (rest2.takeWhile Char.isDigit ++ rest2.dropWhile Char.isDigit))) := by
            rw [List.takeWhile_append_dropWhile]
        _ = (tag ++ ['-']) ++ (a ++ ('-' :: (d ++ rest2.dropWhile Char.isDigit))) := by
            rw [hd]
        _ = tag ++ '-' :: (a ++ '-' :: (d ++ rest2.dropWhile Char.isDigit)) := by simp
    · refine ⟨?_, ?_⟩
      · rw [← ha]; simpa [List.isEmpty_iff] using hae
      · rw [← ha]; exact mem_takeWhile_sat _ _
    · refine ⟨?_, ?_⟩
      · rw [← hd]; simpa [List.isEmpty_iff] using hde
      · rw [← hd]; exact mem_takeWhile_sat _ _
    · exact head_dropWhile_false _ _
  · rintro ⟨rest, hs, ⟨hane, haal⟩, ⟨hdne, hdal⟩, hrest⟩
    have hp : (tag ++ ['-']).isPrefixOf s = true := by
      rw [List.isPrefixOf_iff_prefix, hs]
      exact ⟨a ++ '-' :: (d ++ rest), by simp⟩
    have hdrop : s.drop (tag.length + 1) = a ++ '-' :: (d ++ rest) := by
      have hlen : (tag ++ ['-']).length = tag.length + 1 := by simp
      rw [hs]
      have hre : tag ++ '-' :: (a ++ '-' :: (d ++ rest)) =
          (tag ++ ['-']) ++ (a ++ '-' :: (d ++ rest)) := by simp
      rw [hre, ← hlen, List.drop_left]
    have htw : (a ++ '-' :: (d ++ rest)).takeWhile goAlnum = a := by
      apply takeWhile_append_of_head _ _ _ haal
      intro c hc
      simp only [List.head?_cons, Option.some.injEq] at hc
      subst hc
      decide
    have hdr : (a ++ '-' :: (d ++ rest)).drop a.length = '-' :: (d ++ rest) :=
      List.drop_left a ('-' :: (d ++ rest))
    have htw2 : (d ++ rest).takeWhile Char.isDigit = d :=
      takeWhile_append_of_head _ _ _ hdal hrest
    have hae : a.isEmpty = false := by
      cases a with
      | nil => exact absurd rfl hane
      | cons x t => rfl
    have hde : d.isEmpty = false := by
      cases d with
      | nil => exact absurd rfl hdne
      | cons x t => rfl
    unfold matchAt
    rw [if_pos hp]
    simp only [hdrop, htw, hae, Bool.false_eq_true, if_false, drop_takeWhile_length]
    simp [hdr, htw2, hde]

lemma not_matchFrom_nil (tag a d : List Char) : ¬ MatchFrom tag [] a d := by
  rintro ⟨rest, hs, _, _, _⟩
  exact absurd hs.symm (by simp)

lemma findCapture_eq_some_iff (tag s a d : List Char) :
    findCapture tag s = some (a, d) ↔
      ∃ i, FoundAt tag s i a d ∧ ∀ j a2 d2, j < i → ¬ FoundAt tag s j a2 d2 := by
  induction s with
  | nil =>
    simp only [findCapture]
    constructor
    · intro h; simp at h
    · rintro ⟨i, hF, -⟩
      exact absurd (by simpa [FoundAt, List.drop_nil] using hF) (not_matchFrom_nil tag a d)
  | cons c t ih =>
    constructor
    · intro h
      unfold findCapture at h
      rcases hm : matchAt tag (c :: t) with _ | r
      · rw [hm] at h
        rcases (ih.mp h) with ⟨i, hF, hmin⟩
        refine ⟨i + 1, by simpa [FoundAt, List.drop_succ_cons] using hF, ?_⟩
        intro j a2 d2 hj hFj
        cases j with
        | zero =>
          have : matchAt tag (c :: t) = some (a2, d2) :=
            (matchAt_iff tag (c :: t) a2 d2).mpr (by simpa [FoundAt] using hFj)
          rw [hm] at this; exact absurd this (by simp)
        | succ k =>
          exact hmin k a2 d2 (by omega) (by simpa [FoundAt, List.drop_succ_cons] using hFj)
      · rw [hm] at h
        simp only [Option.some.injEq] at h
        subst h
        refine ⟨0, ?_, ?_⟩
        · simpa [FoundAt] using (matchAt_iff tag (c :: t) a d).mp hm
        · intro j a2 d2 hj; omega
    · rintro ⟨i, hF, hmin⟩
      unfold findCapture
      rcases hm : matchAt tag (c :: t) with _ | r
      · cases i with
        | zero =>
          have : matchAt tag (c :: t) = some (a, d) :=
            (matchAt_iff tag (c :: t) a d).mpr (by simpa [FoundAt] using hF)
          rw [hm] at this; exact absurd this (by simp)
        | succ k =>
          apply ih.mpr
          refine ⟨k, by simpa [FoundAt, List.drop_succ_cons] using hF, ?_⟩
          intro j a2 d2 hj hFj
          exact hmin (j + 1) a2 d2 (by omega)
            (by simpa [FoundAt, List.drop_succ_cons] using hFj)
      · cases i with
        | zero =>
          have h0 : matchAt tag (c :: t) = some (a, d) :=
            (matchAt_iff tag (c :: t) a d).mpr (by simpa [FoundAt] using hF)
          rw [hm] at h0
          simp only [Option.some.injEq] at h0
          rw [← h0]
        | succ k =>
          rcases r with ⟨a0, d0⟩
          have : FoundAt tag (c :: t) 0 a0 d0 := by
            simpa [FoundAt] using (matchAt_iff tag (c :: t) a0 d0).mp hm
          exact absurd this (hmin 0 a0 d0 (by omega))

/-! ## C1: the ownership-and-age test -/

/-- The ownership-and-age test exactly as claim C1 states it: the name
starts with the tag prefix followed by `-`, is in its entirety of the
three-part form `<tagPrefix>-<alphanumeric>-<digits>`, the digit segment
parses as an int64 timestamp, and the age exceeds the retention window.
(Spec-side predicate, written from the claim's words, for comparison
against the source-derived `shouldDelete`.) -/
def claimedOwnedAndExpired (now : Int) (name : List Char) : Prop :=
  (resourceTag ++ ['-']).isPrefixOf name = true ∧
  ∃ a d, name = resourceTag ++ '-' :: (a ++ '-' :: d) ∧ AlnumRun a ∧ DigitRun d ∧
    digitsToNat d ≤ int64Max ∧
    now - (digitsToNat d : Int) * nsPerSec > garbageCollectorResourceAge

/-- A name on which `shouldDelete` and the claimed characterization
disagree: it does not start with `resourceTag ++ "-"` (so the claim calls
it malformed), yet the unanchored regular-expression search of
`shouldDelete` finds the well-formed expired substring
`openstack-client-exporter-a-1` inside it. -/
def cexName : List Char :=
  "openstack-client-exporter_openstack-client-exporter-a-1".toList

/-- C1 counterexample: at time 2000 s (Unix), `shouldDelete` deletes
`cexName` although `cexName` is malformed in the claim's sense (it does
not even start with the tag prefix followed by `-`), so the claimed
if-and-only-if characterization of gc.go's `shouldDelete` is false. -/
theorem shouldDelete_c1_counterexample :
    shouldDelete (2000 * nsPerSec) cexName = true ∧
    ¬ claimedOwnedAndExpired (2000 * nsPerSec) cexName := by
  refine ⟨by decide, ?_⟩
  rintro ⟨hpre, -⟩
  exact absurd hpre (by decide)

/-- C1 amended: `shouldDelete now name` returns true iff `name` starts
with the tag prefix (not necessarily followed by `-`) and the leftmost
substring occurrence of the pattern
`<tagPrefix>-<alphanumeric>-<digits>` anywhere in the name (not the whole
name) yields a digit capture that parses as an int64 and whose age
exceeds the retention window; in every other case it returns false. -/
theorem shouldDelete_iff_leftmost (now : Int) (name : List Char) :
    shouldDelete now name = true ↔
      resourceTag.isPrefixOf name = true ∧
      ∃ i a d, FoundAt resourceTag name i a d ∧
        (∀ j a2 d2, j < i → ¬ FoundAt resourceTag name j a2 d2) ∧
        digitsToNat d ≤ int64Max ∧
        now - (digitsToNat d : Int) * nsPerSec > garbageCollectorResourceAge := by
  unfold shouldDelete
  by_cases hp : resourceTag.isPrefixOf name = true
  swap
  · constructor
    · intro h
      rw [if_neg hp] at h
      simp at h
    · rintro ⟨h, -⟩
      exact absurd h hp
  rw [if_pos hp]
  rcases hf : findCapture resourceTag name with _ | ⟨a0, d0⟩
  · constructor
    · intro h; simp at h
    · rintro ⟨-, i, a, d, hF, hmin, -, -⟩
      have hsome : findCapture resourceTag name = some (a, d) :=
        (findCapture_eq_some_iff _ _ _ _).mpr ⟨i, hF, hmin⟩
      rw [hf] at hsome; exact absurd hsome (by simp)
  · obtain ⟨i0, hF0, hmin0⟩ := (findCapture_eq_some_iff _ _ a0 d0).mp hf
    have hd0 : DigitRun d0 := by
      obtain ⟨rest, -, -, hD, -⟩ := hF0
      exact hD
    have hd0ne : d0.isEmpty = false := by
      rcases hdc : d0 with _ | ⟨x, t⟩
      · exact absurd hdc hd0.1
      · rfl
    have huniq : ∀ i a d, FoundAt resourceTag name i a d →
        (∀ j a2 d2, j < i → ¬ FoundAt resourceTag name j a2 d2) →
        a0 = a ∧ d0 = d := by
      intro i a d hF hmin
      have hsome : findCapture resourceTag name = some (a, d) :=
        (findCapture_eq_some_iff _ _ _ _).mpr ⟨i, hF, hmin⟩
      rw [hf] at hsome
      simpa using hsome
    have hparse : parseInt64 d0 =
        if digitsToNat d0 ≤ int64Max then some ((digitsToNat d0 : Int)) else none := by
      unfold parseInt64
      rw [hd0ne]
      simp
    change (match parseInt64 d0 with
      | none => false
      | some ts =>
        if ts = zeroTimeUnixSeconds then false
        else decide (now - ts * nsPerSec > garbageCollectorResourceAge)) = true ↔ _
    rw [hparse]
    by_cases hle : digitsToNat d0 ≤ int64Max
    swap
    · rw [if_neg hle]
      change false = true ↔ _
      constructor
      · intro h; simp at h
      · rintro ⟨-, i, a, d, hF, hmin, hle2, -⟩
        obtain ⟨-, hdd⟩ := huniq i a d hF hmin
        rw [← hdd] at hle2
        exact absurd hle2 hle
    · rw [if_pos hle]
      have hzero : ¬ ((digitsToNat d0 : Int) = zeroTimeUnixSeconds) := by
        unfold zeroTimeUnixSeconds
        omega
      change (if (digitsToNat d0 : Int) = zeroTimeUnixSeconds then false
        else decide (now - (digitsToNat d0 : Int) * nsPerSec >
          garbageCollectorResourceAge)) = true ↔ _
      rw [if_neg hzero]
      constructor
      · intro h
        exact ⟨hp, i0, a0, d0, hF0, hmin0, hle, by simpa using h⟩
      · rintro ⟨-, i, a, d, hF, hmin, hle2, harith⟩
        obtain ⟨-, hdd⟩ := huniq i a d hF hmin
        rw [hdd]
        simpa using harith

/-! ## C2: run naming and its round trip through the collector -/

/-- Modelled from the spec: run naming.  `spawnInstance` (spawn.go line
263) and `uploadDownloadFile` (spawn.go line 700) obtain their resource
name from `tools.RandomString(resourceTag+"-", 8)`, a helper of the
gophercloud acceptance tools, a third-party dependency whose source is
not part of this repository.  Spec section 4.1 states the produced name
is `"<tagPrefix>-<random-alphanumeric>-<unixTimestampAtCreation>"`;
`suffix` is the random alphanumeric segment and `tsDigits` the decimal
digit string of the creation timestamp. -/
def newRunName (suffix tsDigits : List Char) : List Char :=
  resourceTag ++ '-' :: (suffix ++ '-' :: tsDigits)

/-- The collector's decoding of a resource name: the tag-prefix test and
the regular-expression capture, exactly as `shouldDelete` (gc.go)
performs them. -/
def decodeRunName (name : List Char) : Option (List Char × List Char) :=
  if resourceTag.isPrefixOf name then findCapture resourceTag name else none

/-- C2: a name built by the run-naming contract decodes, through the
collector's own matcher, back to the same random suffix and the same
timestamp digit string (and carries the tag prefix by construction). -/
theorem newRunName_roundTrip (suffix tsDigits : List Char)
    (hs : AlnumRun suffix) (hd : DigitRun tsDigits) :
    decodeRunName (newRunName suffix tsDigits) = some (suffix, tsDigits) := by
  unfold decodeRunName newRunName
  have hp : resourceTag.isPrefixOf
      (resourceTag ++ '-' :: (suffix ++ '-' :: tsDigits)) = true := by
    rw [List.isPrefixOf_iff_prefix]
    exact ⟨'-' :: (suffix ++ '-' :: tsDigits), rfl⟩
  rw [if_pos hp]
  apply (findCapture_eq_some_iff _ _ _ _).mpr
  refine ⟨0, ?_, by omega⟩
  refine ⟨[], by simp, hs, hd, by simp⟩

/-- Witness for C2 at a concrete suffix and timestamp. -/
theorem newRunName_roundTrip_witness :
    AlnumRun "a1B2c3D4".toList ∧ DigitRun "1551363957".toList ∧
    decodeRunName (newRunName "a1B2c3D4".toList "1551363957".toList) =
      some ("a1B2c3D4".toList, "1551363957".toList) :=
  ⟨by decide, by decide, newRunName_roundTrip _ _ (by decide) (by decide)⟩

/-! ## The garbage collector sweep (gc.go `garbageCollector` and the
unnamed variant, which adds `gcVolumes`)

Each resource kind is swept by one loop; the loop body issues a deletion
request for every listed resource that passes the ownership-and-age test
and classifies the outcome in a log line.  Deletion outcomes are supplied
by an environment function mapping the resource identifier to `none`
(success) or `some errMsg` (the platform refused). -/

/-- A listed resource carrying a platform id and a name (servers and
security groups). -/
structure NamedRes where
  id : List Char
  name : List Char
deriving DecidableEq

/-- A floating IP: the run name is carried in the description field. -/
structure Fip where
  id : List Char
  description : List Char
  address : List Char
deriving DecidableEq

/-- A block-storage volume (`gcVolumes`, unnamed gc variant). -/
structure Volume where
  id : List Char
  name : List Char
  status : List Char
deriving DecidableEq

/-- An object inside a swift container.  The platform last-modified
timestamp is listed but the swept code never consults it. -/
structure StoredObject where
  name : List Char
  lastModifiedNs : Int
deriving DecidableEq

/-- A swift container and its contained objects. -/
structure SwiftContainer where
  name : List Char
  objs : List StoredObject
deriving DecidableEq

/-- A deletion request issued to the platform by the sweep. -/
inductive GCReq
  | delServer (id : List Char)
  | delSecGroup (id : List Char)
  | delKeypair (name : List Char)
  | delFip (id : List Char)
  | delVolume (id : List Char)
  | delObject (container : List Char) (name : List Char)
  | delContainer (name : List Char)
deriving DecidableEq

/-- A log line emitted by the sweep, by resource kind. -/
inductive GCLog
  | deleted (kind : String) (n : List Char)
  | deleteFailed (kind : String) (n : List Char) (err : List Char)
deriving DecidableEq

/-- `strings.Contains(s, pat)`. -/
def containsSubstr (pat : List Char) : List Char → Bool
  | [] => pat.isEmpty
  | c :: t => pat.isPrefixOf (c :: t) || containsSubstr pat t

/-- The substring `groups.Delete` errors carry when the group is still
attached to a server. -/
def inUseToken : List Char := "SecurityGroupInUse".toList

/-- The server loop of `garbageCollector` (gc.go lines 93-112). -/
def sweepServers (now : Int) (delErr : List Char → Option (List Char)) :
    List NamedRes → List GCReq × List GCLog
  | [] => ([], [])
  | s :: rest =>
    let r := sweepServers now delErr rest
    if shouldDelete now s.name then
      (GCReq.delServer s.id :: r.1,
       match delErr s.id with
       | none => GCLog.deleted "server" s.name :: r.2
       | some e => GCLog.deleteFailed "server" s.name e :: r.2)
    else r

/-- The security-group loop of `garbageCollector` (gc.go lines 120-140):
a deletion failure whose message contains `SecurityGroupInUse` is
suppressed (no log line at all); any other failure is logged; the loop
continues either way. -/
def sweepSecGroups (now : Int) (delErr : List Char → Option (List Char)) :
    List NamedRes → List GCReq × List GCLog
  | [] => ([], [])
  | g :: rest =>
    let r := sweepSecGroups now delErr rest
    if shouldDelete now g.name then
      (GCReq.delSecGroup g.id :: r.1,
       match delErr g.id with
       | none => GCLog.deleted "secgroup" g.name :: r.2
       | some e =>
         if containsSubstr inUseToken e then r.2
         else GCLog.deleteFailed "secgroup" g.name e :: r.2)
    else r

/-- `gcKeypairs` (gc.go lines 257-287): keypairs are deleted by name. -/
def sweepKeypairs (now : Int) (delErr : List Char → Option (List Char)) :
    List (List Char) → List GCReq × List GCLog
  | [] => ([], [])
  | k :: rest =>
    let r := sweepKeypairs now delErr rest
    if shouldDelete now k then
      (GCReq.delKeypair k :: r.1,
       match delErr k with
       | none => GCLog.deleted "keypair" k :: r.2
       | some e => GCLog.deleteFailed "keypair" k e :: r.2)
    else r

/-- `gcFloatingIPs` (gc.go lines 225-255): the ownership test runs on the
description field. -/
def sweepFips (now : Int) (delErr : List Char → Option (List Char)) :
    List Fip → List GCReq × List GCLog
  | [] => ([], [])
  | f :: rest =>
    let r := sweepFips now delErr rest
    if shouldDelete now f.description then
      (GCReq.delFip f.id :: r.1,
       match delErr f.id with
       | none => GCLog.deleted "fip" f.address :: r.2
       | some e => GCLog.deleteFailed "fip" f.address e :: r.2)
    else r

def availableStatus : List Char := "available".toList

def errorStatus : List Char := "error".toList

/-- `gcVolumes` (unnamed gc variant lines 296-330): a volume whose status
is neither `available` nor `error` is skipped before the name test. -/
def sweepVolumes (now : Int) (delErr : List Char → Option (List Char)) :
    List Volume → List GCReq × List GCLog
  | [] => ([], [])
  | v :: rest =>
    let r := sweepVolumes now delErr rest
    if v.status ≠ availableStatus ∧ v.status ≠ errorStatus then r
    else if shouldDelete now v.name then
      (GCReq.delVolume v.id :: r.1,
       match delErr v.id with
       | none => GCLog.deleted "volume" v.name :: r.2
       | some e => GCLog.deleteFailed "volume" v.name e :: r.2)
    else r

/-- One container's handling inside `gcObjectStorage` (gc.go lines
176-214): if the container name passes the ownership-and-age test, every
contained object is deleted (the loop carries no per-object condition),
then the container's reported object count is consulted and the container
itself is deleted only when that count is zero.  The follow-up
`X-Container-Object-Count` header is modelled as the number of objects
whose deletion just failed; its parse-failure branch is not modelled. -/
def sweepContainer (now : Int)
    (objDelErr : List Char → List Char → Option (List Char))
    (containerDelErr : List Char → Option (List Char))
    (c : SwiftContainer) : List GCReq × List GCLog :=
  if shouldDelete now c.name then
    let objReqs := c.objs.map (fun o => GCReq.delObject c.name o.name)
    let objLogs := c.objs.map (fun o =>
      match objDelErr c.name o.name with
      | none => GCLog.deleted "object" o.name
      | some e => GCLog.deleteFailed "object" o.name e)
    let remaining := (c.objs.filter (fun o => (objDelErr c.name o.name).isSome)).length
    if remaining = 0 then
      match containerDelErr c.name with
      | none => (objReqs ++ [GCReq.delContainer c.name],
                 objLogs ++ [GCLog.deleted "container" c.name])
      | some e => (objReqs ++ [GCReq.delContainer c.name],
                   objLogs ++ [GCLog.deleteFailed "container" c.name e])
    else (objReqs, objLogs)
  else ([], [])

/-- `gcObjectStorage` (gc.go lines 161-223): `containers.List` is called
with `Prefix: resourceTag`, so only containers carrying the tag prefix
are listed at all; each listed container is then handled in turn. -/
def gcObjectStorage (now : Int)
    (objDelErr : List Char → List Char → Option (List Char))
    (containerDelErr : List Char → Option (List Char))
    (cs : List SwiftContainer) : List GCReq × List GCLog :=
  (cs.filter (fun c => resourceTag.isPrefixOf c.name)).foldr
    (fun c acc =>
      let r := sweepContainer now objDelErr containerDelErr c
      (r.1 ++ acc.1, r.2 ++ acc.2))
    ([], [])

/-- The cloud account contents one sweep observes. -/
structure CloudState where
  servers : List NamedRes
  secGroups : List NamedRes
  keypairs : List (List Char)
  fips : List Fip
  volumes : List Volume
  containers : List SwiftContainer

/-- Deletion outcomes for one sweep, per resource kind. -/
structure DeleteEnv where
  serverErr : List Char → Option (List Char)
  sgErr : List Char → Option (List Char)
  kpErr : List Char → Option (List Char)
  fipErr : List Char → Option (List Char)
  volErr : List Char → Option (List Char)
  objErr : List Char → List Char → Option (List Char)
  containerErr : List Char → Option (List Char)

/-- One full sweep (`garbageCollector`, unnamed gc variant lines 75-166):
servers, then security groups, then keypairs, floating IPs, volumes and
the object store, in source order; per-resource deletion failures are
logged and never terminate the sweep. -/
def garbageCollector (now : Int) (st : CloudState) (env : DeleteEnv) :
    List GCReq × List GCLog :=
  let sv := sweepServers now env.serverErr st.servers
  let sg := sweepSecGroups now env.sgErr st.secGroups
  let kp := sweepKeypairs now env.kpErr st.keypairs
  let fp := sweepFips now env.fipErr st.fips
  let vl := sweepVolumes now env.volErr st.volumes
  let ob := gcObjectStorage now env.objErr env.containerErr st.containers
  (sv.1 ++ sg.1 ++ kp.1 ++ fp.1 ++ vl.1 ++ ob.1,
   sv.2 ++ sg.2 ++ kp.2 ++ fp.2 ++ vl.2 ++ ob.2)

/-! ## C7: volume status guard -/

/-- C7: a volume deletion request is only ever issued for a volume whose
platform-reported status is `available` or `error`; volumes in any other
status (attached, mid-transition) are skipped before the name test. -/
theorem sweepVolumes_status_guard (now : Int)
    (delErr : List Char → Option (List Char)) (vols : List Volume) (vid : List Char)
    (h : GCReq.delVolume vid ∈ (sweepVolumes now delErr vols).1) :
    ∃ v ∈ vols, v.id = vid ∧ (v.status = availableStatus ∨ v.status = errorStatus) := by
  induction vols with
  | nil => simp [sweepVolumes] at h
  | cons v rest ih =>
    simp only [sweepVolumes] at h
    by_cases hskip : v.status ≠ availableStatus ∧ v.status ≠ errorStatus
    · rw [if_pos hskip] at h
      obtain ⟨w, hw, hids⟩ := ih h
      exact ⟨w, List.mem_cons_of_mem _ hw, hids⟩
    · have hst : v.status = availableStatus ∨ v.status = errorStatus := by
        rcases not_and_or.mp hskip with h1 | h2
        · exact Or.inl (not_not.mp h1)
        · exact Or.inr (not_not.mp h2)
      rw [if_neg hskip] at h
      by_cases hsd : shouldDelete now v.name = true
      · rw [if_pos hsd] at h
        simp only [List.mem_cons] at h
        rcases h with heq | h
        · refine ⟨v, List.mem_cons_self v rest, ?_, hst⟩
          cases heq
          rfl
        · obtain ⟨w, hw, hids⟩ := ih h
          exact ⟨w, List.mem_cons_of_mem _ hw, hids⟩
      · rw [if_neg hsd] at h
        obtain ⟨w, hw, hids⟩ := ih h
        exact ⟨w, List.mem_cons_of_mem _ hw, hids⟩

/-- Witness for C7: a concrete sweep that does issue a request for an
expired-named available volume. -/
theorem sweepVolumes_status_guard_witness :
    GCReq.delVolume "vol1".toList ∈
      (sweepVolumes (2000 * nsPerSec) (fun _ => none)
        [⟨"vol1".toList, "openstack-client-exporter-a-100".toList, availableStatus⟩]).1 ∧
    ∃ v ∈ [(⟨"vol1".toList, "openstack-client-exporter-a-100".toList,
        availableStatus⟩ : Volume)], v.id = "vol1".toList ∧
      (v.status = availableStatus ∨ v.status = errorStatus) :=
  ⟨by decide, sweepVolumes_status_guard (2000 * nsPerSec) (fun _ => none) _ _ (by decide)⟩

/-! ## C8: security-group deletion failures -/

lemma sweepSecGroups_fail_log_iff (now : Int) (delErr : List Char → Option (List Char))
    (gs : List NamedRes) (n e : List Char) :
    GCLog.deleteFailed "secgroup" n e ∈ (sweepSecGroups now delErr gs).2 ↔
      ∃ g, g ∈ gs ∧ g.name = n ∧ shouldDelete now g.name = true ∧
        delErr g.id = some e ∧ containsSubstr inUseToken e = false := by
  induction gs with
  | nil => simp [sweepSecGroups]
  | cons g rest ih =>
    by_cases hsd : shouldDelete now g.name = true
    swap
    · have hstep : sweepSecGroups now delErr (g :: rest) = sweepSecGroups now delErr rest := by
        simp [sweepSecGroups, hsd]
      rw [hstep, ih]
      constructor
      · rintro ⟨w, hw, hr⟩
        exact ⟨w, List.mem_cons_of_mem _ hw, hr⟩
      · rintro ⟨w, hw, hname, hsd2, hr⟩
        rcases List.mem_cons.mp hw with heq | hmem
        · subst heq
          exact absurd hsd2 hsd
        · exact ⟨w, hmem, hname, hsd2, hr⟩
    · rcases hde : delErr g.id with _ | e2
      · have hlog : (sweepSecGroups now delErr (g :: rest)).2 =
            GCLog.deleted "secgroup" g.name :: (sweepSecGroups now delErr rest).2 := by
          simp [sweepSecGroups, hsd, hde]
        rw [hlog]
        constructor
        · intro h
          rcases List.mem_cons.mp h with habs | h2
          · exact absurd habs (by simp)
          · obtain ⟨w, hw, hr⟩ := ih.mp h2
            exact ⟨w, List.mem_cons_of_mem _ hw, hr⟩
        · rintro ⟨w, hw, hname, hsd2, herr, hcon⟩
          rcases List.mem_cons.mp hw with heq | hmem
          · subst heq
            rw [hde] at herr
            exact absurd herr (by simp)
          · exact List.mem_cons_of_mem _ (ih.mpr ⟨w, hmem, hname, hsd2, herr, hcon⟩)
      · by_cases hin : containsSubstr inUseToken e2 = true
        · have hlog : (sweepSecGroups now delErr (g :: rest)).2 =
              (sweepSecGroups now delErr rest).2 := by
            simp [sweepSecGroups, hsd, hde, hin]
          rw [hlog, ih]
          constructor
          · rintro ⟨w, hw, hr⟩
            exact ⟨w, List.mem_cons_of_mem _ hw, hr⟩
          · rintro ⟨w, hw, hname, hsd2, herr, hcon⟩
            rcases List.mem_cons.mp hw with heq | hmem
            · subst heq
              rw [hde] at herr
              injection herr with he2
              rw [he2] at hin
              rw [hin] at hcon
              exact absurd hcon (by simp)
            · exact ⟨w, hmem, hname, hsd2, herr, hcon⟩
        · have hlog : (sweepSecGroups now delErr (g :: rest)).2 =
              GCLog.deleteFailed "secgroup" g.name e2 ::
                (sweepSecGroups now delErr rest).2 := by
            simp [sweepSecGroups, hsd, hde, hin]
          rw [hlog]
          constructor
          · intro h
            rcases List.mem_cons.mp h with heq | h2
            · injection heq with hk hn he
              refine ⟨g, List.mem_cons_self g rest, hn.symm, hsd, ?_, ?_⟩
              · rw [hde, he]
              · rw [he]
                simpa using hin
            · obtain ⟨w, hw, hr⟩ := ih.mp h2
              exact ⟨w, List.mem_cons_of_mem _ hw, hr⟩
          · rintro ⟨w, hw, hname, hsd2, herr, hcon⟩
            rcases List.mem_cons.mp hw with heq | hmem
            · subst heq
              rw [hde] at herr
              injection herr with he2
              apply List.mem_cons.mpr
              left
              rw [hname, he2]
            · exact List.mem_cons_of_mem _
                (ih.mpr ⟨w, hmem, hname, hsd2, herr, hcon⟩)

lemma sweepSecGroups_req_of_eligible (now : Int) (delErr : List Char → Option (List Char))
    (gs : List NamedRes) :
    ∀ g ∈ gs, shouldDelete now g.name = true →
      GCReq.delSecGroup g.id ∈ (sweepSecGroups now delErr gs).1 := by
  induction gs with
  | nil => simp
  | cons g0 rest ih =>
    intro g hg hsd
    rcases List.mem_cons.mp hg with heq | hmem
    · subst heq
      simp [sweepSecGroups, hsd]
    · by_cases hsd0 : shouldDelete now g0.name = true
      · simp only [sweepSecGroups, if_pos hsd0, List.mem_cons]
        exact Or.inr (ih g hmem hsd)
      · simp only [sweepSecGroups, if_neg hsd0]
        exact ih g hmem hsd

lemma sweepKeypairs_req_of_eligible (now : Int) (delErr : List Char → Option (List Char))
    (ks : List (List Char)) :
    ∀ k ∈ ks, shouldDelete now k = true →
      GCReq.delKeypair k ∈ (sweepKeypairs now delErr ks).1 := by
  induction ks with
  | nil => simp
  | cons k0 rest ih =>
    intro k hk hsd
    rcases List.mem_cons.mp hk with heq | hmem
    · subst heq
      simp [sweepKeypairs, hsd]
    · by_cases hsd0 : shouldDelete now k0 = true
      · simp only [sweepKeypairs, if_pos hsd0, List.mem_cons]
        exact Or.inr (ih k hmem hsd)
      · simp only [sweepKeypairs, if_neg hsd0]
        exact ih k hmem hsd

/-- C8: (i) a genuine security-group failure log line appears exactly for
the groups whose deletion failed with an error not containing
`SecurityGroupInUse` — in-use failures are suppressed entirely; (ii) a
deletion request is still issued for every eligible group whatever the
outcomes of the other deletions (the loop never aborts); (iii) a later
resource kind (keypairs) is still swept in the same run, whatever the
security-group deletion outcomes. -/
theorem secGroup_failure_policy (now : Int) (st : CloudState) (env : DeleteEnv)
    (n e : List Char) :
    (GCLog.deleteFailed "secgroup" n e ∈ (sweepSecGroups now env.sgErr st.secGroups).2 ↔
      ∃ g, g ∈ st.secGroups ∧ g.name = n ∧ shouldDelete now g.name = true ∧
        env.sgErr g.id = some e ∧ containsSubstr inUseToken e = false) ∧
    (∀ g ∈ st.secGroups, shouldDelete now g.name = true →
      GCReq.delSecGroup g.id ∈ (sweepSecGroups now env.sgErr st.secGroups).1) ∧
    (∀ k ∈ st.keypairs, shouldDelete now k = true →
      GCReq.delKeypair k ∈ (garbageCollector now st env).1) := by
  refine ⟨sweepSecGroups_fail_log_iff now env.sgErr st.secGroups n e,
    sweepSecGroups_req_of_eligible now env.sgErr st.secGroups, ?_⟩
  intro k hk hsd
  have hm := sweepKeypairs_req_of_eligible now env.kpErr st.keypairs k hk hsd
  unfold garbageCollector
  simp only [List.mem_append]
  tauto

/-! ## C6: the object-store sweep -/

lemma shouldDelete_hasTag {now : Int} {n : List Char}
    (h : shouldDelete now n = true) : resourceTag.isPrefixOf n = true := by
  unfold shouldDelete at h
  by_cases hp : resourceTag.isPrefixOf n = true
  · exact hp
  · rw [if_neg hp] at h
    simp at h

/-- A container whose name is already expired at time 2000 s but whose
single object was last modified at 2000 s (age zero). -/
def c6Container : SwiftContainer :=
  ⟨"openstack-client-exporter-a-100".toList, [⟨"payload".toList, 2000 * nsPerSec⟩]⟩

/-- C6 counterexample: the sweep issues a deletion request for the
object of `c6Container` even though that object is not past the
retention window (its age is zero) — the per-object loop of
`gcObjectStorage` carries no age condition, contradicting the claim that
a non-expired object is left alone. -/
theorem gcObjectStorage_c6_counterexample :
    GCReq.delObject "openstack-client-exporter-a-100".toList "payload".toList ∈
      (gcObjectStorage (2000 * nsPerSec) (fun _ _ => none) (fun _ => none)
        [c6Container]).1 ∧
    ¬ (2000 * nsPerSec - (2000 * nsPerSec : Int) > garbageCollectorResourceAge) := by
  constructor
  · decide
  · decide

lemma gcObjectStorage_mem_of_container (now : Int)
    (objDelErr : List Char → List Char → Option (List Char))
    (containerDelErr : List Char → Option (List Char))
    (cs : List SwiftContainer) (c : SwiftContainer) (hc : c ∈ cs)
    (hp : resourceTag.isPrefixOf c.name = true) :
    (sweepContainer now objDelErr containerDelErr c).1 ⊆
      (gcObjectStorage now objDelErr containerDelErr cs).1 := by
  unfold gcObjectStorage
  have hcf : c ∈ cs.filter (fun c2 => resourceTag.isPrefixOf c2.name) :=
    List.mem_filter.mpr ⟨hc, by simpa using hp⟩
  have key : ∀ listed : List SwiftContainer, c ∈ listed →
      (sweepContainer now objDelErr containerDelErr c).1 ⊆
        (listed.foldr
          (fun c2 acc =>
            let r := sweepContainer now objDelErr containerDelErr c2
            (r.1 ++ acc.1, r.2 ++ acc.2))
          ([], [])).1 := by
    intro listed
    induction listed with
    | nil => intro h; simp at h
    | cons x rest ih =>
      intro h q hq
      rcases List.mem_cons.mp h with heq | hmem
      · subst heq
        simp only [List.foldr_cons]
        exact List.mem_append_left _ hq
      · simp only [List.foldr_cons]
        exact List.mem_append_right _ (ih hmem hq)
  exact key _ hcf

/-- C6 amended: once a container's (tag-prefixed) name passes the
ownership-and-age test, (i) a deletion request is issued for every
contained object unconditionally — there is no per-object age
evaluation; (ii) the container itself is deleted only when the reported
object count after the object sweep is zero (here: no object deletion
failed); (iii) any container deletion request comes after all the
object deletion requests of the pass; and (iv) the per-container
requests are all issued by the full `gcObjectStorage` sweep over any
account state containing the container. -/
theorem sweepContainer_policy (now : Int)
    (objDelErr : List Char → List Char → Option (List Char))
    (containerDelErr : List Char → Option (List Char))
    (c : SwiftContainer) (hsd : shouldDelete now c.name = true) :
    (∀ o ∈ c.objs, GCReq.delObject c.name o.name ∈
      (sweepContainer now objDelErr containerDelErr c).1) ∧
    (GCReq.delContainer c.name ∈ (sweepContainer now objDelErr containerDelErr c).1 →
      (c.objs.filter (fun o => (objDelErr c.name o.name).isSome)).length = 0) ∧
    (∀ r ∈ (sweepContainer now objDelErr containerDelErr c).1.dropLast,
      ∀ m, r ≠ GCReq.delContainer m) ∧
    (∀ cs : List SwiftContainer, c ∈ cs →
      (sweepContainer now objDelErr containerDelErr c).1 ⊆
        (gcObjectStorage now objDelErr containerDelErr cs).1) := by
  have hobj : ∀ o ∈ c.objs, GCReq.delObject c.name o.name ∈
      c.objs.map (fun o => GCReq.delObject c.name o.name) := by
    intro o ho
    exact List.mem_map.mpr ⟨o, ho, rfl⟩
  have hmapform : ∀ r ∈ c.objs.map (fun o => GCReq.delObject c.name o.name),
      ∀ m, r ≠ GCReq.delContainer m := by
    intro r hr m
    obtain ⟨o, -, rfl⟩ := List.mem_map.mp hr
    simp
  by_cases hrem : (c.objs.filter (fun o => (objDelErr c.name o.name).isSome)).length = 0
  · have hreq : (sweepContainer now objDelErr containerDelErr c).1 =
        c.objs.map (fun o => GCReq.delObject c.name o.name) ++
          [GCReq.delContainer c.name] := by
      rcases hcd : containerDelErr c.name with _ | e2 <;>
        simp [sweepContainer, hsd, hrem, hcd]
    refine ⟨?_, fun _ => hrem, ?_, ?_⟩
    · intro o ho
      rw [hreq]
      exact List.mem_append_left _ (hobj o ho)
    · intro r hr m
      rw [hreq, List.dropLast_concat] at hr
      exact hmapform r hr m
    · intro cs hc
      exact gcObjectStorage_mem_of_container now objDelErr containerDelErr cs c hc
        (shouldDelete_hasTag hsd)
  · have hreq : (sweepContainer now objDelErr containerDelErr c).1 =
        c.objs.map (fun o => GCReq.delObject c.name o.name) := by
      simp [sweepContainer, hsd, hrem]
    refine ⟨?_, ?_, ?_, ?_⟩
    · intro o ho
      rw [hreq]
      exact hobj o ho
    · intro hmem
      rw [hreq] at hmem
      exact absurd rfl (hmapform _ hmem c.name)
    · intro r hr m
      rw [hreq] at hr
      exact hmapform r ((List.dropLast_sublist _).subset hr) m
    · intro cs hc
      exact gcObjectStorage_mem_of_container now objDelErr containerDelErr cs c hc
        (shouldDelete_hasTag hsd)

/-- Witness for C6 (amended) at the concrete container of the
counterexample: its not-yet-expired object still receives a deletion
request. -/
theorem sweepContainer_policy_witness :
    shouldDelete (2000 * nsPerSec) c6Container.name = true ∧
    ∀ o ∈ c6Container.objs, GCReq.delObject c6Container.name o.name ∈
      (sweepContainer (2000 * nsPerSec) (fun _ _ => none) (fun _ => none)
        c6Container).1 :=
  ⟨by decide,
   (sweepContainer_policy (2000 * nsPerSec) (fun _ _ => none) (fun _ => none)
     c6Container (by decide)).1⟩

/-! ## C9: the collector loop's sleep -/

/-- Go's `time.Sleep` as documented in the time package: a negative or
zero duration causes `Sleep` to return immediately, so the duration
actually slept is the argument clamped at zero. -/
def goSleep (d : Int) : Int := if d ≤ 0 then 0 else d

/-- `sleepTime := garbageCollectorSleep - time.Since(start)` (gc.go line
30, unnamed variant line 34): the computed sleep argument after a sweep
that took `elapsed` nanoseconds. -/
def gcComputedSleep (elapsed : Int) : Int := garbageCollectorSleep - elapsed

/-- The duration `runGarbageCollector` actually sleeps between sweeps. -/
def gcSleptDuration (elapsed : Int) : Int := goSleep (gcComputedSleep elapsed)

/-- C9: the duration slept between sweeps is the fixed interval minus the
just-finished sweep's duration, clamped at zero, hence never negative.
(The clamping is performed by `time.Sleep` itself: the computed argument
`gcComputedSleep` may well be negative when a sweep overruns the
interval.) -/
theorem gcSleptDuration_clamped (elapsed : Int) :
    gcSleptDuration elapsed = max 0 (garbageCollectorSleep - elapsed) ∧
    0 ≤ gcSleptDuration elapsed := by
  unfold gcSleptDuration goSleep gcComputedSleep
  constructor
  · split_ifs with h <;> omega
  · split_ifs with h <;> omega

/-! ## C4: the step recorder (main.go `step`) -/

/-- `step` (main.go lines 95-104):
`timing.With(...).SetToCurrentTime()` always runs first, then a
non-blocking `select` consults `ctx.Done()` and returns the timeout
error exactly when the shared deadline has elapsed.  The gauge series is
an association list, newest entry first (prometheus `Set` semantics:
the latest value per label wins); `ctxDone` says whether the context's
done channel was closed at the moment of the check. -/
def step (ctxDone : Bool) (timing : List (String × Int)) (name : String) (now : Int) :
    List (String × Int) × Option String :=
  ((name, now) :: timing,
   if ctxDone then some ("timeout after " ++ name) else none)

/-- C4: the checkpoint for the named stage is recorded unconditionally
(the recorded series does not depend on the deadline state), and the
call returns a failure exactly when the shared deadline has already
elapsed at the moment of recording. -/
theorem step_records_then_checks (ctxDone : Bool) (timing : List (String × Int))
    (name : String) (now : Int) :
    (step ctxDone timing name now).1 = (name, now) :: timing ∧
    ((step ctxDone timing name now).2.isSome ↔ ctxDone = true) ∧
    (step true timing name now).1 = (step false timing name now).1 := by
  refine ⟨rfl, ?_, rfl⟩
  cases ctxDone <;> simp [step]

/-! ## C10: getPort (spawn.go) -/

/-- A neutron port. -/
structure Port where
  id : List Char
deriving DecidableEq

/-- `getPort` (spawn.go lines 171-185), total embedding.  `listing` is
the combined outcome of `ports.List(...).AllPages()` and
`ports.ExtractPorts`; the function returns `&allPorts[0]` without any
length check, so on an empty listing the index-zero access is out of
bounds: that branch is `none` (a Go runtime panic), distinct from every
error return of the function. -/
def getPort (listing : Except (List Char) (List Port)) :
    Option (Except (List Char) Port) :=
  match listing with
  | .error _ => some (.error "failed to get instance port ID".toList)
  | .ok allPorts =>
    match allPorts with
    | [] => none
    | p :: _ => some (.ok p)

/-- C10: on a successful but empty port listing, `getPort` reaches the
out-of-bounds branch (`none`), which is not converted into the
function's error return; on a non-empty listing it unconditionally
returns the first element. -/
theorem getPort_empty_listing_panics :
    getPort (.ok []) = none ∧
    (∀ e : List Char, getPort (.ok []) ≠ some (.error e)) ∧
    (∀ (p : Port) (ps : List Port), getPort (.ok (p :: ps)) = some (.ok p)) := by
  refine ⟨rfl, ?_, ?_⟩
  · intro e h
    simp [getPort] at h
  · intro p ps
    rfl

/-! ## The compute probe pipeline (spawn.go `spawnInstance`)

The pipeline is a straight-line sequence of fallible operations and
deadline checks.  Each operation's outcome is supplied by the
environment; the model tracks the `defer` stack exactly where the source
registers compensating deletes, and every exit (error return, success,
or runtime panic) reports the compensations Go would run at that point
(deferred calls run on panics as well).  `sshServer` (spawn.go 205-256)
is inlined at its call site: signer creation first, then the client
configuration reads `hostKeys[0]` — on an empty key slice that index is
out of bounds, which the model renders as a `panicked` exit. -/

/-- The four resources of the probe that register compensating deletes. -/
inductive Res
  | securityGroup
  | sshKeypair
  | floatingIP
  | server
deriving DecidableEq

/-- How one probe run ends. -/
inductive ExitKind
  | success
  | failure (cause : String)
  | panicked (site : String)
deriving DecidableEq

/-- Observable outcome of one modelled probe run: the exit, the
compensating deletes executed at exit in execution order (reverse order
of registration), whether `sshServer` was entered, and the host key its
client configuration pinned. -/
structure SpawnOut where
  exit : ExitKind
  cleanups : List Res
  sshAttempted : Bool
  usedHostKey : Option String
deriving DecidableEq

/-- Outcomes of every fallible operation of one `spawnInstance` run.
`stepOk name` is the deadline state at the `step(ctx, timing, name)`
call (`true` = deadline not yet elapsed); the loop flags say whether the
polled condition is reached before the deadline; `hostKeysOk` is whether
`getHostKey` returned without error and `hostKeys` the keys it parsed. -/
structure SpawnEnv where
  stepOk : String → Bool
  getProviderOk : Bool
  glanceOk : Bool
  imageFound : Bool
  novaOk : Bool
  flavorFound : Bool
  neutronOk : Bool
  networkFound : Bool
  groupCreateOk : Bool
  ruleCreateOk : Bool
  keygenOk : Bool
  keypairCreateOk : Bool
  extNetworkFound : Bool
  fipCreateOk : Bool
  serverCreateOk : Bool
  serverBecomesActive : Bool
  portOk : Bool
  fipAssociateOk : Bool
  consoleAppears : Bool
  hostKeysOk : Bool
  hostKeys : List String
  signerOk : Bool
  sshOk : Bool

/-- `spawnInstance` (spawn.go lines 258-558).  The compensating-delete
lists written at each exit are the `defer`s registered so far; note that
`defer cleanupSecurityGroup` is only registered after `rules.Create`
succeeds (line 371) and `defer cleanupSSHKeypair` only after the
`ssh_key_uploaded` deadline check (line 397). -/
def spawnInstance (env : SpawnEnv) : SpawnOut :=
  if env.stepOk "start" = false then ⟨.failure "timeout after start", [], false, none⟩ else
  if env.getProviderOk = false then ⟨.failure "authentication failure", [], false, none⟩ else
  if env.stepOk "auth_ok" = false then ⟨.failure "timeout after auth_ok", [], false, none⟩ else
  if env.glanceOk = false then ⟨.failure "glance client failure", [], false, none⟩ else
  if env.imageFound = false then ⟨.failure "image not found", [], false, none⟩ else
  if env.stepOk "image_id" = false then ⟨.failure "timeout after image_id", [], false, none⟩ else
  if env.novaOk = false then ⟨.failure "nova client failure", [], false, none⟩ else
  if env.flavorFound = false then ⟨.failure "flavor not found", [], false, none⟩ else
  if env.stepOk "flavor_id" = false then ⟨.failure "timeout after flavor_id", [], false, none⟩ else
  if env.neutronOk = false then ⟨.failure "neutron client failure", [], false, none⟩ else
  if env.networkFound = false then ⟨.failure "cannot get network", [], false, none⟩ else
  if env.stepOk "network_id" = false then ⟨.failure "timeout after network_id", [], false, none⟩ else
  if env.groupCreateOk = false then ⟨.failure "security group failure", [], false, none⟩ else
  if env.stepOk "security_group_created" = false then
    ⟨.failure "timeout after security_group_created", [], false, none⟩ else
  if env.ruleCreateOk = false then
    ⟨.failure "security group rule failure", [], false, none⟩ else
  -- defer cleanupSecurityGroup registered here (spawn.go line 371)
  let d1 := [Res.securityGroup]
  if env.stepOk "security_group_rule_created" = false then
    ⟨.failure "timeout after security_group_rule_created", d1, false, none⟩ else
  if env.keygenOk = false then ⟨.failure "SSH key creation failure", d1, false, none⟩ else
  if env.keypairCreateOk = false then ⟨.failure "SSH key upload failure", d1, false, none⟩ else
  if env.stepOk "ssh_key_uploaded" = false then
    ⟨.failure "timeout after ssh_key_uploaded", d1, false, none⟩ else
  -- defer cleanupSSHKeypair registered here (spawn.go line 397)
  let d2 := Res.sshKeypair :: d1
  if env.extNetworkFound = false then
    ⟨.failure "failed to find external network", d2, false, none⟩ else
  if env.stepOk "external_network_id" = false then
    ⟨.failure "timeout after external_network_id", d2, false, none⟩ else
  if env.fipCreateOk = false then ⟨.failure "floating IP failure", d2, false, none⟩ else
  -- defer cleanupFIP registered here (spawn.go line 423)
  let d3 := Res.floatingIP :: d2
  if env.stepOk "floating_ip_created" = false then
    ⟨.failure "timeout after floating_ip_created", d3, false, none⟩ else
  if env.serverCreateOk = false then ⟨.failure "server creation failed", d3, false, none⟩ else
  -- defer cleanupServer registered here (spawn.go line 459)
  let d4 := Res.server :: d3
  if env.stepOk "server_created" = false then
    ⟨.failure "timeout after server_created", d4, false, none⟩ else
  if env.serverBecomesActive = false then
    ⟨.failure "timeout waiting for server to reach ACTIVE status", d4, false, none⟩ else
  if env.stepOk "server_active_status" = false then
    ⟨.failure "timeout after server_active_status", d4, false, none⟩ else
  if env.portOk = false then ⟨.failure "cannot get server port", d4, false, none⟩ else
  if env.fipAssociateOk = false then
    ⟨.failure "failed to assign floating IP", d4, false, none⟩ else
  if env.stepOk "floating_ip_associated" = false then
    ⟨.failure "timeout after floating_ip_associated", d4, false, none⟩ else
  if env.consoleAppears = false then
    ⟨.failure "timeout while waiting for console output", d4, false, none⟩ else
  -- getHostKey: an error is only logged (spawn.go 531-535); the keys are
  -- nil on error
  let keys := if env.hostKeysOk then env.hostKeys else []
  if env.stepOk "ssh_host_keys_retrieved" = false then
    ⟨.failure "timeout after ssh_host_keys_retrieved", d4, false, none⟩ else
  -- sshServer starts here (spawn.go line 545 calling lines 205-256)
  if env.signerOk = false then
    ⟨.failure "SSH connection failed: unable to create signer from private key",
      d4, true, none⟩ else
  match keys with
  | [] => ⟨.panicked "sshServer: hostKeys[0] index out of range", d4, true, none⟩
  | k :: _ =>
    if env.sshOk = false then
      ⟨.failure "SSH connection failed: timeout during ssh connection", d4, true, some k⟩ else
    if env.stepOk "ssh_successful" = false then
      ⟨.failure "timeout after ssh_successful", d4, true, some k⟩ else
    if env.stepOk "end" = false then ⟨.failure "timeout after end", d4, true, some k⟩ else
    ⟨.success, d4, true, some k⟩

/-- An environment in which every operation succeeds and no deadline
fires; single parsed host key. -/
def allOkEnv : SpawnEnv where
  stepOk := fun _ => true
  getProviderOk := true
  glanceOk := true
  imageFound := true
  novaOk := true
  flavorFound := true
  neutronOk := true
  networkFound := true
  groupCreateOk := true
  ruleCreateOk := true
  keygenOk := true
  keypairCreateOk := true
  extNetworkFound := true
  fipCreateOk := true
  serverCreateOk := true
  serverBecomesActive := true
  portOk := true
  fipAssociateOk := true
  consoleAppears := true
  hostKeysOk := true
  hostKeys := ["hostkey1"]
  signerOk := true
  sshOk := true

/-- Everything preceding `rules.Create` succeeds. -/
def ReachesRuleCreate (env : SpawnEnv) : Prop :=
  env.stepOk "start" = true ∧ env.getProviderOk = true ∧
  env.stepOk "auth_ok" = true ∧ env.glanceOk = true ∧ env.imageFound = true ∧
  env.stepOk "image_id" = true ∧ env.novaOk = true ∧ env.flavorFound = true ∧
  env.stepOk "flavor_id" = true ∧ env.neutronOk = true ∧ env.networkFound = true ∧
  env.stepOk "network_id" = true ∧ env.groupCreateOk = true ∧
  env.stepOk "security_group_created" = true

instance (env : SpawnEnv) : Decidable (ReachesRuleCreate env) := by
  unfold ReachesRuleCreate; infer_instance

/-! ## C3: compensation around security-rule creation -/

/-- A run in which the security group is created but the subsequent
security-rule creation fails. -/
def c3Env : SpawnEnv := { allOkEnv with ruleCreateOk := false }

/-- C3 counterexample: when rule creation itself fails, the run exits
with the rule-failure cause and executes no compensating delete at all —
in particular not the one for the already-created security group,
because `defer cleanupSecurityGroup` is only registered after
`rules.Create` succeeds. -/
theorem spawn_c3_counterexample :
    (spawnInstance c3Env).exit = ExitKind.failure "security group rule failure" ∧
    (spawnInstance c3Env).cleanups = [] ∧
    Res.securityGroup ∉ (spawnInstance c3Env).cleanups := by
  refine ⟨by decide, by decide, by decide⟩

/-- C3 amended: in a run that reaches rule creation, (i) a failure of the
`rules.Create` call itself exits with no compensating delete (the
security group is left behind for the garbage collector); (ii) a failure
of the `security_group_rule_created` deadline check — the first exit
after the compensation is registered — executes exactly the
security-group delete and none for the key pair, floating address or
server. -/
theorem spawn_rule_stage_compensation (env : SpawnEnv) (h : ReachesRuleCreate env) :
    (env.ruleCreateOk = false → (spawnInstance env).cleanups = []) ∧
    (env.ruleCreateOk = true → env.stepOk "security_group_rule_created" = false →
      (spawnInstance env).cleanups = [Res.securityGroup]) := by
  obtain ⟨e1, e2, e3, e4, e5, e6, e7, e8, e9, e10, e11, e12, e13, e14⟩ := h
  constructor
  · intro hr
    simp [spawnInstance, e1, e2, e3, e4, e5, e6, e7, e8, e9, e10, e11, e12, e13, e14, hr]
  · intro hr hstep
    simp [spawnInstance, e1, e2, e3, e4, e5, e6, e7, e8, e9, e10, e11, e12, e13, e14,
      hr, hstep]

/-- An environment that times out exactly at the
`security_group_rule_created` deadline check. -/
def c3StepEnv : SpawnEnv :=
  { allOkEnv with stepOk := fun s => !(s == "security_group_rule_created") }

/-- Witness for C3 (amended) at `c3StepEnv`. -/
theorem spawn_rule_stage_compensation_witness :
    ReachesRuleCreate c3StepEnv ∧
    ((c3StepEnv.ruleCreateOk = false → (spawnInstance c3StepEnv).cleanups = []) ∧
     (c3StepEnv.ruleCreateOk = true →
       c3StepEnv.stepOk "security_group_rule_created" = false →
       (spawnInstance c3StepEnv).cleanups = [Res.securityGroup])) :=
  ⟨by decide, spawn_rule_stage_compensation c3StepEnv (by decide)⟩

/-! ## C5: zero parseable host keys -/

/-- Everything preceding the remote-login step succeeds (the host-key
retrieval outcome is deliberately unconstrained). -/
def ReachesSSH (env : SpawnEnv) : Prop :=
  ReachesRuleCreate env ∧
  env.ruleCreateOk = true ∧ env.stepOk "security_group_rule_created" = true ∧
  env.keygenOk = true ∧ env.keypairCreateOk = true ∧
  env.stepOk "ssh_key_uploaded" = true ∧ env.extNetworkFound = true ∧
  env.stepOk "external_network_id" = true ∧ env.fipCreateOk = true ∧
  env.stepOk "floating_ip_created" = true ∧ env.serverCreateOk = true ∧
  env.stepOk "server_created" = true ∧ env.serverBecomesActive = true ∧
  env.stepOk "server_active_status" = true ∧ env.portOk = true ∧
  env.fipAssociateOk = true ∧ env.stepOk "floating_ip_associated" = true ∧
  env.consoleAppears = true ∧ env.stepOk "ssh_host_keys_retrieved" = true ∧
  env.signerOk = true

instance (env : SpawnEnv) : Decidable (ReachesSSH env) := by
  unfold ReachesSSH; infer_instance

/-- A run in which the console host-key block is found but contains zero
parseable keys: `getHostKey` returns an empty slice and no error. -/
def c5Env : SpawnEnv := { allOkEnv with hostKeys := [] }

/-- C5 counterexample: with zero parseable host keys the run does reach
the remote-login step, but `sshServer` then evaluates `hostKeys[0]` on
an empty slice — a runtime panic, not a crash-free execution with an
empty trusted-key set. -/
theorem spawn_c5_counterexample :
    (spawnInstance c5Env).sshAttempted = true ∧
    (spawnInstance c5Env).exit =
      ExitKind.panicked "sshServer: hostKeys[0] index out of range" := by
  refine ⟨by decide, by decide⟩

/-- C5 amended: in a run that reaches the remote-login step, (i) the
host-key-retrieval stage is never fatal — `sshServer` is entered
whatever `getHostKey` produced; (ii) when at least one key was parsed,
the login trusts exactly the first one; (iii) when zero keys are
available the first-key access is out of bounds and the run panics
rather than executing with an empty trusted-key set. -/
theorem spawn_hostkeys_policy (env : SpawnEnv) (h : ReachesSSH env) :
    (spawnInstance env).sshAttempted = true ∧
    (∀ k ks, (if env.hostKeysOk then env.hostKeys else []) = k :: ks →
      (spawnInstance env).usedHostKey = some k) ∧
    ((if env.hostKeysOk then env.hostKeys else []) = [] →
      (spawnInstance env).exit =
        ExitKind.panicked "sshServer: hostKeys[0] index out of range") := by
  obtain ⟨⟨e1, e2, e3, e4, e5, e6, e7, e8, e9, e10, e11, e12, e13, e14⟩,
    f1, f2, f3, f4, f5, f6, f7, f8, f9, f10, f11, f12, f13, f14, f15, f16, f17,
    f18, f19⟩ := h
  refine ⟨?_, ?_, ?_⟩
  · simp only [spawnInstance, e1, e2, e3, e4, e5, e6, e7, e8, e9, e10, e11, e12, e13,
      e14, f1, f2, f3, f4, f5, f6, f7, f8, f9, f10, f11, f12, f13, f14, f15, f16,
      f17, f18, f19]
    cases hk : (if env.hostKeysOk = true then env.hostKeys else []) with
    | nil => simp
    | cons k ks =>
      by_cases hssh : env.sshOk = false
      · simp [hssh]
      · by_cases hs1 : env.stepOk "ssh_successful" = false
        · simp [hssh, hs1]
        · by_cases hs2 : env.stepOk "end" = false
          · simp [hssh, hs1, hs2]
          · simp [hssh, hs1, hs2]
  · intro k ks hk
    simp only [spawnInstance, e1, e2, e3, e4, e5, e6, e7, e8, e9, e10, e11, e12, e13,
      e14, f1, f2, f3, f4, f5, f6, f7, f8, f9, f10, f11, f12, f13, f14, f15, f16,
      f17, f18, f19, hk]
    by_cases hssh : env.sshOk = false
    · simp [hssh]
    · by_cases hs1 : env.stepOk "ssh_successful" = false
      · simp [hssh, hs1]
      · by_cases hs2 : env.stepOk "end" = false
        · simp [hssh, hs1, hs2]
        · simp [hssh, hs1, hs2]
  · intro hk
    simp [spawnInstance, e1, e2, e3, e4, e5, e6, e7, e8, e9, e10, e11, e12, e13,
      e14, f1, f2, f3, f4, f5, f6, f7, f8, f9, f10, f11, f12, f13, f14, f15, f16,
      f17, f18, f19, hk]

/-- Witness for C5 (amended) at an environment with one parsed key. -/
theorem spawn_hostkeys_policy_witness :
    ReachesSSH allOkEnv ∧
    ((spawnInstance allOkEnv).sshAttempted = true ∧
     (∀ k ks, (if allOkEnv.hostKeysOk then allOkEnv.hostKeys else []) = k :: ks →
       (spawnInstance allOkEnv).usedHostKey = some k) ∧
     ((if allOkEnv.hostKeysOk then allOkEnv.hostKeys else []) = [] →
       (spawnInstance allOkEnv).exit =
         ExitKind.panicked "sshServer: hostKeys[0] index out of range")) :=
  ⟨by decide, spawn_hostkeys_policy allOkEnv (by decide)⟩

end OpenStackExporter
